import Mathlib

/-!
Verification of the covidtracker-usa notebook's data pipeline.

The notebook loads a table of case records (date, state, county, fips,
cumulative cases, cumulative deaths), computes per-locality daily deltas
with `diff().fillna(0)`, concatenates the per-locality frames, and sorts
the result by (date, state, county).  Plotting code flags anomalies on a
decomposition residual and computes a case-fatality ratio by float
division.  We embed these computations over lists and prove properties
about them.
-/

/-- A record of the input table `us_counties`: one row of the NYT CSV,
with the date encoded as an ordinal number. -/
structure Row where
  date : Nat
  state : String
  county : String
  fips : Nat
  cases : Int
  deaths : Int
deriving DecidableEq, Repr

/-- A row of the derived table `full_df`: the original row plus the two
appended columns `daily_cases` and `daily_deaths`. -/
structure DRow where
  row : Row
  daily_cases : Int
  daily_deaths : Int
deriving DecidableEq, Repr

/-- The rows of the per-locality temporary frame
`us_counties[(us_counties.state == state) & (us_counties.county == county)]`,
kept in the order in which they occur in the input table. -/
def groupRows (t : List Row) (state county : String) : List Row :=
  t.filter (fun r => r.state = state && r.county = county)

/-- Recursion for `diff().fillna(0)` applied to both cumulative columns:
each subsequent row's delta is its cumulative value minus the previous
row's cumulative value, in the frame's stored row order. -/
def deltaGroupAux (prevCases prevDeaths : Int) : List Row → List DRow
  | [] => []
  | r :: rest =>
      ⟨r, r.cases - prevCases, r.deaths - prevDeaths⟩ ::
        deltaGroupAux r.cases r.deaths rest

/-- The body of the collation loop: given one locality's frame, append
`daily_cases = cases.diff().fillna(0)` and
`daily_deaths = deaths.diff().fillna(0)`.  The first row's diff is NaN
and is filled to 0. -/
def deltaGroup : List Row → List DRow
  | [] => []
  | r :: rest => ⟨r, 0, 0⟩ :: deltaGroupAux r.cases r.deaths rest

/-- The unique (state, county) pairs of the input table, as produced by
`us_counties.groupby(['state', 'county']).groups.keys()`: each observed
pair exactly once. -/
def groupKeys (t : List Row) : List (String × String) :=
  (t.map (fun r => (r.state, r.county))).dedup

/-- Comparison used by `sort_values(by=['date', 'state', 'county'])`:
lexicographic order on the key (date, state, county), with the string
columns compared lexicographically by character code point. -/
def keyLE (a b : DRow) : Prop :=
  a.row.date < b.row.date ∨
    (a.row.date = b.row.date ∧
      (a.row.state.data < b.row.state.data ∨
        (a.row.state.data = b.row.state.data ∧
          a.row.county.data ≤ b.row.county.data)))

instance : DecidableRel keyLE := fun a b => by
  unfold keyLE
  infer_instance

instance : IsTotal DRow keyLE := by
  constructor
  intro a b
  unfold keyLE
  rcases Nat.lt_trichotomy a.row.date b.row.date with h | h | h
  · exact Or.inl (Or.inl h)
  · rcases lt_trichotomy a.row.state.data b.row.state.data with hs | hs | hs
    · exact Or.inl (Or.inr ⟨h, Or.inl hs⟩)
    · rcases le_total a.row.county.data b.row.county.data with hc | hc
      · exact Or.inl (Or.inr ⟨h, Or.inr ⟨hs, hc⟩⟩)
      · exact Or.inr (Or.inr ⟨h.symm, Or.inr ⟨hs.symm, hc⟩⟩)
    · exact Or.inr (Or.inr ⟨h.symm, Or.inl hs⟩)
  · exact Or.inr (Or.inl h)

instance : IsTrans DRow keyLE := by
  constructor
  intro a b c hab hbc
  unfold keyLE at *
  rcases hab with h1 | ⟨h1, h1s⟩
  · rcases hbc with h2 | ⟨h2, _⟩
    · exact Or.inl (h1.trans h2)
    · exact Or.inl (h2 ▸ h1)
  · rcases hbc with h2 | ⟨h2, h2s⟩
    · exact Or.inl (h1 ▸ h2)
    · refine Or.inr ⟨h1.trans h2, ?_⟩
      rcases h1s with hs1 | ⟨hs1, hc1⟩
      · rcases h2s with hs2 | ⟨hs2, _⟩
        · exact Or.inl (hs1.trans hs2)
        · exact Or.inl (hs2 ▸ hs1)
      · rcases h2s with hs2 | ⟨hs2, hc2⟩
        · exact Or.inl (hs1 ▸ hs2)
        · exact Or.inr ⟨hs1.trans hs2, hc1.trans hc2⟩

/-- The construction of `full_df`: for each unique (state, county) pair
extract the locality frame, append the daily deltas in the frame's stored
row order, concatenate everything, and sort by (date, state, county). -/
def full_transform (t : List Row) : List DRow :=
  ((groupKeys t).flatMap
    (fun k => deltaGroup (groupRows t k.1 k.2))).insertionSort keyLE

/-- Comparison by date alone, used to describe chronological order inside
one locality frame. -/
def dateLE (a b : Row) : Prop :=
  a.date ≤ b.date

instance : DecidableRel dateLE := fun a b => by
  unfold dateLE
  infer_instance

instance : IsTotal Row dateLE :=
  ⟨fun a b => Nat.le_total a.date b.date⟩

instance : IsTrans Row dateLE :=
  ⟨fun _ _ _ h1 h2 => Nat.le_trans h1 h2⟩

/-- Modelled from the spec: the delta transform as the spec describes it
(section 4.1, "For each unique (state, county) pair, sort by date and
compute the discrete difference").  Identical to `full_transform` except
that each locality frame is first sorted by date before the diff.  This
sorting step is absent from the notebook code. -/
def full_transform_spec (t : List Row) : List DRow :=
  ((groupKeys t).flatMap
    (fun k => deltaGroup ((groupRows t k.1 k.2).insertionSort dateLE))).insertionSort keyLE

/-- Accumulating a list of deltas starting from a given initial value:
each output element is the running total after adding the next delta. -/
def accumFrom (start : Int) : List Int → List Int
  | [] => []
  | d :: rest => (start + d) :: accumFrom (start + d) rest

/-- The locality filter of `make_plots`: the widgets supply strings where
the empty string means "no selection", and each nonempty selection is
applied as an equality filter on its column.  The county filter is applied
whether or not the state matches, mirroring the notebook. -/
def filterLocality (t : List DRow) (state county : String) : List DRow :=
  let t1 := if state ≠ "" then t.filter (fun d => d.row.state = state) else t
  if county ≠ "" then t1.filter (fun d => d.row.county = county) else t1

/-- The filter stage of `plot_timeseries`: the arguments default to
Python `None`; `if state:` is true only for a non-None, nonempty string,
and the county filter, tested with `if county and not county == '':`, is
nested inside that branch. -/
def ptsFilter (t : List DRow) (state county : Option String) : List DRow :=
  match state with
  | none => t
  | some s =>
      if s = "" then t
      else
        let d := t.filter (fun r => r.row.state = s)
        match county with
        | none => d
        | some c => if c = "" then d else d.filter (fun r => r.row.county = c)

/-- The distinct dates of a derived table in increasing order, as produced
by `groupby('date').sum().sort_index()`. -/
def sortedDates (t : List DRow) : List Nat :=
  ((t.map (fun d => d.row.date)).dedup).insertionSort (fun a b => a ≤ b)

/-- Aggregation by date of one numeric column: for each distinct date, the
sum of the selected column over the rows carrying that date. -/
def aggByDate (t : List DRow) (sel : DRow → Int) : List (Nat × Int) :=
  (sortedDates t).map
    (fun day => (day, ((t.filter (fun r => r.row.date = day)).map sel).sum))

/-- Arithmetic mean of a list, as `Series.mean()` computes it. -/
noncomputable def listMean (xs : List ℝ) : ℝ :=
  xs.sum / xs.length

/-- Sample standard deviation with one delta degree of freedom, as
`Series.std()` computes it: the square root of the sum of squared
deviations from the mean divided by (n - 1). -/
noncomputable def sampleStd (xs : List ℝ) : ℝ :=
  Real.sqrt ((xs.map (fun x => (x - listMean xs) ^ 2)).sum / (xs.length - 1))

/-- The default of the `anomaly_threshold` argument of `plot_timeseries`. -/
def anomaly_threshold_default : ℝ := 3

/-- The anomaly selection of `plot_timeseries`: position `i` of the
residual series is kept by
`resid[abs(resid - resid.mean()) >= (anomaly_threshold * resid.std())]`
exactly when its absolute deviation from the residual mean is at least
the threshold times the sample standard deviation. -/
def anomalous (threshold : ℝ) (resid : List ℝ) (i : ℕ) : Prop :=
  i < resid.length ∧
    threshold * sampleStd resid ≤ |resid.getD i 0 - listMean resid|

/-- Modelled from the spec: a point "deviates from its mean by more than
a configurable multiple of its standard deviation" — a strict comparison,
in contrast to the `>=` the code performs. -/
def anomalousSpecStrict (threshold : ℝ) (resid : List ℝ) (i : ℕ) : Prop :=
  i < resid.length ∧
    threshold * sampleStd resid < |resid.getD i 0 - listMean resid|

/-- A floating-point value as pandas arithmetic produces it: a finite
number (modelled exactly by a rational), NaN, or a signed infinity. -/
inductive FVal where
  | num (q : ℚ)
  | nan
  | posInf
  | negInf
deriving DecidableEq, Repr

/-- Float division with numpy semantics: a finite value divided by zero
gives NaN (for numerator zero) or a signed infinity, never an error. -/
def FVal.div : FVal → FVal → FVal
  | .num a, .num b =>
      if b = 0 then
        if a = 0 then .nan else if 0 < a then .posInf else .negInf
      else .num (a / b)
  | .nan, _ => .nan
  | _, .nan => .nan
  | .num _, .posInf => .num 0
  | .num _, .negInf => .num 0
  | .posInf, .num b => if 0 ≤ b then .posInf else .negInf
  | .negInf, .num b => if 0 ≤ b then .negInf else .posInf
  | .posInf, .posInf => .nan
  | .posInf, .negInf => .nan
  | .negInf, .posInf => .nan
  | .negInf, .negInf => .nan

/-- Float multiplication with numpy semantics. -/
def FVal.mul : FVal → FVal → FVal
  | .num a, .num b => .num (a * b)
  | .nan, _ => .nan
  | _, .nan => .nan
  | .posInf, .num b => if b = 0 then .nan else if 0 < b then .posInf else .negInf
  | .num a, .posInf => if a = 0 then .nan else if 0 < a then .posInf else .negInf
  | .negInf, .num b => if b = 0 then .nan else if 0 < b then .negInf else .posInf
  | .num a, .negInf => if a = 0 then .nan else if 0 < a then .negInf else .posInf
  | .posInf, .posInf => .posInf
  | .posInf, .negInf => .negInf
  | .negInf, .posInf => .negInf
  | .negInf, .negInf => .posInf

/-- A float value is finite when it is an actual number, neither NaN nor
an infinity. -/
def FVal.isFinite : FVal → Bool
  | .num _ => true
  | _ => false

/-- The constant `CFR_CASE_LOOKBACK_DAYS` of the notebook. -/
def CFR_CASE_LOOKBACK_DAYS : ℕ := 14

/-- `Series.shift(n)`: the series displaced forward by `n` positions, the
first `n` positions filled with NaN, the length unchanged. -/
def shiftSeries (n : ℕ) (xs : List FVal) : List FVal :=
  (List.replicate n FVal.nan ++ xs).take xs.length

/-- The case-fatality-ratio series of `make_plots`:
`(daily_deaths / daily_cases.shift(lookback)) * 100`, elementwise over the
aggregated series, in float arithmetic. -/
def cfrSeries (deaths cases : List ℚ) (lookback : ℕ) : List FVal :=
  List.zipWith (fun d c => FVal.mul (FVal.div (FVal.num d) c) (FVal.num 100))
    deaths (shiftSeries lookback (cases.map FVal.num))

/-- The derived rows of one locality frame carry exactly the frame's
original rows, in order. -/
theorem deltaGroupAux_map_row (l : List Row) :
    ∀ pc pd, (deltaGroupAux pc pd l).map DRow.row = l := by
  induction l with
  | nil => intro pc pd; rfl
  | cons r rest ih =>
      intro pc pd
      simp [deltaGroupAux, ih]

/-- Projecting the delta-augmented frame back to its original columns
recovers the input frame unchanged. -/
theorem deltaGroup_map_row (g : List Row) : (deltaGroup g).map DRow.row = g := by
  cases g with
  | nil => rfl
  | cons r rest => simp [deltaGroup, deltaGroupAux_map_row]

/-- Accumulating the tail deltas of a locality frame from the previous
cumulative value reproduces the frame's cumulative cases column. -/
theorem accum_deltaGroupAux_cases (l : List Row) :
    ∀ pc pd, accumFrom pc ((deltaGroupAux pc pd l).map DRow.daily_cases)
      = l.map Row.cases := by
  induction l with
  | nil => intro pc pd; rfl
  | cons r rest ih =>
      intro pc pd
      simp only [deltaGroupAux, List.map_cons, accumFrom]
      have h : pc + (r.cases - pc) = r.cases := by ring
      rw [h, ih]

/-- Accumulating the tail deltas of a locality frame from the previous
cumulative value reproduces the frame's cumulative deaths column. -/
theorem accum_deltaGroupAux_deaths (l : List Row) :
    ∀ pc pd, accumFrom pd ((deltaGroupAux pc pd l).map DRow.daily_deaths)
      = l.map Row.deaths := by
  induction l with
  | nil => intro pc pd; rfl
  | cons r rest ih =>
      intro pc pd
      simp only [deltaGroupAux, List.map_cons, accumFrom]
      have h : pd + (r.deaths - pd) = r.deaths := by ring
      rw [h, ih]

/-- Claim C1: for every (state, county) locality group of the input
table, accumulating the computed daily_cases (resp. daily_deaths) deltas
from the group's first record, starting from the first cumulative value,
reconstructs the group's cumulative cases (resp. deaths) column exactly;
when the group is chronologically ordered, that first record is the one
of the group's first date. -/
theorem claim_C1_accumulation_reconstructs
    (t : List Row) (s c : String) (r : Row) (rest : List Row)
    (h : groupRows t s c = r :: rest) :
    (accumFrom r.cases ((deltaGroup (groupRows t s c)).map DRow.daily_cases)
      = (groupRows t s c).map Row.cases ∧
    accumFrom r.deaths ((deltaGroup (groupRows t s c)).map DRow.daily_deaths)
      = (groupRows t s c).map Row.deaths) ∧
    (List.Sorted dateLE (groupRows t s c) →
      ∀ x ∈ groupRows t s c, r.date ≤ x.date) := by
  constructor
  · rw [h]
    constructor
    · simp only [deltaGroup, List.map_cons, accumFrom, add_zero]
      rw [accum_deltaGroupAux_cases]
    · simp only [deltaGroup, List.map_cons, accumFrom, add_zero]
      rw [accum_deltaGroupAux_deaths]
  · intro hs x hx
    rw [h] at hs hx
    rcases List.mem_cons.mp hx with hx | hx
    · exact hx ▸ Nat.le_refl _
    · exact (List.pairwise_cons.mp hs).1 x hx

/-- A three-day one-locality table with cumulative cases 10, 15, 20. -/
def tableC3 : List Row :=
  [⟨1, "Virginia", "Fairfax", 51059, 10, 2⟩,
   ⟨2, "Virginia", "Fairfax", 51059, 15, 3⟩,
   ⟨3, "Virginia", "Fairfax", 51059, 20, 5⟩]

/-- Claim C1 witness: the reconstruction theorem applied to the concrete
three-day table. -/
theorem claim_C1_witness :
    groupRows tableC3 "Virginia" "Fairfax"
      = ⟨1, "Virginia", "Fairfax", 51059, 10, 2⟩ ::
        [⟨2, "Virginia", "Fairfax", 51059, 15, 3⟩,
         ⟨3, "Virginia", "Fairfax", 51059, 20, 5⟩] ∧
    ((accumFrom 10
        ((deltaGroup (groupRows tableC3 "Virginia" "Fairfax")).map DRow.daily_cases)
      = (groupRows tableC3 "Virginia" "Fairfax").map Row.cases ∧
    accumFrom 2
        ((deltaGroup (groupRows tableC3 "Virginia" "Fairfax")).map DRow.daily_deaths)
      = (groupRows tableC3 "Virginia" "Fairfax").map Row.deaths) ∧
    (List.Sorted dateLE (groupRows tableC3 "Virginia" "Fairfax") →
      ∀ x ∈ groupRows tableC3 "Virginia" "Fairfax",
        (⟨1, "Virginia", "Fairfax", 51059, 10, 2⟩ : Row).date ≤ x.date)) :=
  ⟨by decide,
   claim_C1_accumulation_reconstructs tableC3 "Virginia" "Fairfax"
     ⟨1, "Virginia", "Fairfax", 51059, 10, 2⟩
     [⟨2, "Virginia", "Fairfax", 51059, 15, 3⟩,
      ⟨3, "Virginia", "Fairfax", 51059, 20, 5⟩]
     (by decide)⟩

/-- Claim C3: for a single locality whose cumulative case counts over
three consecutive days are 10, 15, 20, the delta transform produces the
daily counts 0, 5, 5. -/
theorem claim_C3_three_day_deltas :
    (full_transform tableC3).map (fun d => d.daily_cases) = [0, 5, 5] := by
  decide

/-- Claim C4: the first row of every (state, county) locality group has
daily_cases zero and daily_deaths zero after the delta transform. -/
theorem claim_C4_first_row_zero
    (t : List Row) (s c : String) (r : Row) (rest : List Row)
    (h : groupRows t s c = r :: rest) :
    (deltaGroup (groupRows t s c)).head? = some ⟨r, 0, 0⟩ := by
  rw [h]
  rfl

/-- Claim C4 witness: the first-row theorem applied to the concrete
three-day table. -/
theorem claim_C4_witness :
    groupRows tableC3 "Virginia" "Fairfax"
      = ⟨1, "Virginia", "Fairfax", 51059, 10, 2⟩ ::
        [⟨2, "Virginia", "Fairfax", 51059, 15, 3⟩,
         ⟨3, "Virginia", "Fairfax", 51059, 20, 5⟩] ∧
    (deltaGroup (groupRows tableC3 "Virginia" "Fairfax")).head?
      = some ⟨⟨1, "Virginia", "Fairfax", 51059, 10, 2⟩, 0, 0⟩ :=
  ⟨by decide,
   claim_C4_first_row_zero tableC3 "Virginia" "Fairfax"
     ⟨1, "Virginia", "Fairfax", 51059, 10, 2⟩
     [⟨2, "Virginia", "Fairfax", 51059, 15, 3⟩,
      ⟨3, "Virginia", "Fairfax", 51059, 20, 5⟩]
     (by decide)⟩

/-- Claim C10: with state equal to Python None, the filter stage of
plot_timeseries leaves the table untouched for every county value, and
the subsequent date aggregation therefore runs over the entire
unfiltered table. -/
theorem claim_C10_county_ignored_without_state
    (t : List DRow) (county : Option String) (sel : DRow → Int) :
    ptsFilter t none county = t ∧
    aggByDate (ptsFilter t none county) sel = aggByDate t sel :=
  ⟨rfl, rfl⟩

/-- A one-locality table whose two rows are stored in reverse
chronological order: date 2 with cumulative cases 15 before date 1 with
cumulative cases 10. -/
def tableC2 : List Row :=
  [⟨2, "A", "B", 1, 15, 3⟩, ⟨1, "A", "B", 1, 10, 2⟩]

/-- Claim C2 counterexample: on a locality whose rows are not stored in
date order, the transform diffs in stored order, so its output differs
from the spec's sort-by-date-first transform: the code yields daily
cases -5 on date 1 and 0 on date 2, while sorting by date first would
yield 0 and 5. -/
theorem claim_C2_counterexample :
    (full_transform tableC2).map (fun d => (d.row.date, d.daily_cases))
      = [(1, -5), (2, 0)] ∧
    (full_transform_spec tableC2).map (fun d => (d.row.date, d.daily_cases))
      = [(1, 0), (2, 5)] ∧
    full_transform tableC2 ≠ full_transform_spec tableC2 := by
  refine ⟨by decide, by decide, by decide⟩

/-- Claim C2 (amended): the delta transform computes the discrete
difference of cumulative cases and deaths in each group's stored row
order — which agrees with the spec's sort-by-date-first description
whenever every locality's rows are already chronologically ordered — and
its output table is sorted by (date, state, county). -/
theorem claim_C2_amended (t : List Row) :
    List.Sorted keyLE (full_transform t) ∧
    ((∀ s c, List.Sorted dateLE (groupRows t s c)) →
      full_transform t = full_transform_spec t) := by
  constructor
  · exact List.sorted_insertionSort keyLE _
  · intro h
    unfold full_transform full_transform_spec
    have hfun : (fun k : String × String => deltaGroup (groupRows t k.1 k.2))
        = fun k : String × String =>
            deltaGroup ((groupRows t k.1 k.2).insertionSort dateLE) := by
      funext k
      rw [List.Sorted.insertionSort_eq (h k.1 k.2)]
    rw [hfun]

/-- Claim C2 witness: the amended theorem applied to the concrete
three-day table, whose single locality group is chronologically
ordered. -/
theorem claim_C2_witness :
    (∀ s c, List.Sorted dateLE (groupRows tableC3 s c)) ∧
    (List.Sorted keyLE (full_transform tableC3) ∧
      full_transform tableC3 = full_transform_spec tableC3) :=
  have h : ∀ s c, List.Sorted dateLE (groupRows tableC3 s c) := fun s c =>
    List.Pairwise.filter _ (by decide : List.Pairwise dateLE tableC3)
  ⟨h, (claim_C2_amended tableC3).1, (claim_C2_amended tableC3).2 h⟩

/-- Summing an indicator-style map over a duplicate-free list collapses
to a single conditional on membership. -/
theorem sum_map_ite_count {β : Type} [DecidableEq β] (b : β) (v : ℕ) :
    ∀ ks : List β, ks.Nodup →
    (ks.map (fun k => if b = k then v else 0)).sum = if b ∈ ks then v else 0 := by
  intro ks
  induction ks with
  | nil => intro _; simp
  | cons k rest ih =>
      intro hnd
      rcases List.nodup_cons.mp hnd with ⟨hk, hrest⟩
      by_cases hb : b = k
      · subst hb
        have hnotmem : b ∉ rest := hk
        simp [ih hrest, hnotmem]
      · simp [hb, ih hrest, List.mem_cons]

/-- The number of copies of a row inside one extracted locality frame:
all of them when the row belongs to that locality, none otherwise. -/
theorem count_groupRows (t : List Row) (x : Row) (k : String × String) :
    List.count x (groupRows t k.1 k.2)
      = if (x.state, x.county) = k then List.count x t else 0 := by
  by_cases h : (x.state, x.county) = k
  · rw [if_pos h]
    apply List.count_filter
    have h1 : x.state = k.1 := congrArg Prod.fst h
    have h2 : x.county = k.2 := congrArg Prod.snd h
    simp [h1, h2]
  · rw [if_neg h]
    rw [List.count_eq_zero]
    intro hmem
    rcases List.mem_filter.mp hmem with ⟨_, hp⟩
    apply h
    have h1 : x.state = k.1 := by
      rcases Bool.and_eq_true _ _ |>.mp hp with ⟨ha, _⟩
      exact of_decide_eq_true ha
    have h2 : x.county = k.2 := by
      rcases Bool.and_eq_true _ _ |>.mp hp with ⟨_, hb⟩
      exact of_decide_eq_true hb
    exact Prod.ext h1 h2

/-- Re-extracting every observed locality frame and concatenating them is
a permutation of the input table: each row lands in exactly the frame of
its own (state, county) key. -/
theorem partition_perm (t : List Row) :
    ((groupKeys t).flatMap (fun k => groupRows t k.1 k.2)).Perm t := by
  rw [List.perm_iff_count]
  intro x
  rw [List.count_flatMap]
  have hmap : List.map (List.count x ∘ fun k => groupRows t k.1 k.2) (groupKeys t)
      = List.map (fun k => if (x.state, x.county) = k then List.count x t else 0)
          (groupKeys t) :=
    List.map_congr_left (fun k _ => count_groupRows t x k)
  have hnd : (groupKeys t).Nodup := by
    unfold groupKeys
    exact List.nodup_dedup _
  rw [hmap, sum_map_ite_count _ _ _ hnd]
  by_cases hk : (x.state, x.county) ∈ groupKeys t
  · rw [if_pos hk]
  · rw [if_neg hk]
    symm
    rw [List.count_eq_zero]
    intro hx
    exact hk (List.mem_dedup.mpr (List.mem_map.mpr ⟨x, hx, rfl⟩))

/-- Claim C9: the delta transform preserves the input table's row count
and leaves every original column value of every record unchanged — the
projection of its output onto the original columns is a permutation of
the input table, so its only effects are the two appended daily columns
and the final reordering. -/
theorem claim_C9_original_columns_preserved (t : List Row) :
    ((full_transform t).map DRow.row).Perm t ∧
    (full_transform t).length = t.length := by
  have h2 : ((groupKeys t).flatMap
      (fun k => deltaGroup (groupRows t k.1 k.2))).map DRow.row
      = (groupKeys t).flatMap (fun k => groupRows t k.1 k.2) := by
    rw [List.map_flatMap]
    exact congrArg _ (funext fun k => deltaGroup_map_row _)
  have hperm : ((full_transform t).map DRow.row).Perm t := by
    unfold full_transform
    have hstep := (List.perm_insertionSort keyLE
      ((groupKeys t).flatMap (fun k => deltaGroup (groupRows t k.1 k.2)))).map DRow.row
    rw [h2] at hstep
    exact hstep.trans (partition_perm t)
  refine ⟨hperm, ?_⟩
  have hlen := hperm.length_eq
  rwa [List.length_map] at hlen

/-- Claim C5 counterexample: on the residual series 1, 0, -1 (mean 0,
sample standard deviation 1) with threshold 1, the code flags position 0
because its deviation equals the threshold times the standard deviation,
while the spec's strict "more than" reading would not flag it. -/
theorem claim_C5_counterexample :
    anomalous 1 [1, 0, -1] 0 ∧ ¬ anomalousSpecStrict 1 [1, 0, -1] 0 := by
  have hmean : listMean [1, 0, -1] = 0 := by
    norm_num [listMean]
  have hstd : sampleStd [1, 0, -1] = 1 := by
    unfold sampleStd
    rw [hmean]
    norm_num
  constructor
  · refine ⟨by norm_num, ?_⟩
    rw [hmean, hstd]
    norm_num
  · rintro ⟨_, hlt⟩
    rw [hmean, hstd] at hlt
    norm_num at hlt

/-- Claim C5 (amended): a point of the aggregated series is flagged as an
anomaly exactly when its decomposition residual deviates from the
residual mean by more than, or by exactly, anomaly_threshold times the
residual sample standard deviation — the code compares with `>=`, so the
boundary case is flagged — with anomaly_threshold defaulting to 3. -/
theorem claim_C5_flag_rule (threshold : ℝ) (resid : List ℝ) (i : ℕ) :
    anomaly_threshold_default = 3 ∧
    (anomalous threshold resid i ↔
      (anomalousSpecStrict threshold resid i ∨
        (i < resid.length ∧
          |resid.getD i 0 - listMean resid| = threshold * sampleStd resid))) := by
  refine ⟨rfl, ?_⟩
  unfold anomalous anomalousSpecStrict
  constructor
  · rintro ⟨hi, hle⟩
    rcases lt_or_eq_of_le hle with hlt | heq
    · exact Or.inl ⟨hi, hlt⟩
    · exact Or.inr ⟨hi, heq.symm⟩
  · rintro (⟨hi, hlt⟩ | ⟨hi, heq⟩)
    · exact ⟨hi, le_of_lt hlt⟩
    · exact ⟨hi, le_of_eq heq.symm⟩

/-- The sample standard deviation is a square root, hence nonnegative. -/
theorem sampleStd_nonneg (xs : List ℝ) : 0 ≤ sampleStd xs :=
  Real.sqrt_nonneg _

/-- Claim C6: raising the sigma multiplier never flags new points — at a
larger threshold the flagged set is a subset of the flagged set at a
smaller threshold, so the number of flagged anomalies never increases. -/
theorem claim_C6_threshold_monotone (resid : List ℝ) (t1 t2 : ℝ) (h : t1 ≤ t2) :
    {i | anomalous t2 resid i} ⊆ {i | anomalous t1 resid i} ∧
    Set.ncard {i | anomalous t2 resid i} ≤ Set.ncard {i | anomalous t1 resid i} := by
  have hsub : {i | anomalous t2 resid i} ⊆ {i | anomalous t1 resid i} := by
    rintro i ⟨hi, hge⟩
    exact ⟨hi, le_trans (mul_le_mul_of_nonneg_right h (sampleStd_nonneg resid)) hge⟩
  refine ⟨hsub, Set.ncard_le_ncard hsub ?_⟩
  exact Set.Finite.subset (Set.finite_lt_nat resid.length) (fun i hi => hi.1)

/-- Claim C6 witness: the monotonicity theorem applied to the concrete
residual series 1, 0, -1 with thresholds 1 and 2. -/
theorem claim_C6_witness :
    (1 : ℝ) ≤ 2 ∧
    ({i | anomalous 2 [1, 0, -1] i} ⊆ {i | anomalous 1 [1, 0, -1] i} ∧
      Set.ncard {i | anomalous 2 [1, 0, -1] i}
        ≤ Set.ncard {i | anomalous 1 [1, 0, -1] i}) :=
  ⟨one_le_two, claim_C6_threshold_monotone [1, 0, -1] 1 2 one_le_two⟩

/-- An element of a zipWith at a position inside the result combines the
two inputs' elements at that position. -/
theorem zipWith_getD {α β γ : Type} (f : α → β → γ) (a0 : α) (b0 : β) (c0 : γ) :
    ∀ (l1 : List α) (l2 : List β) (i : ℕ),
      i < (List.zipWith f l1 l2).length →
      (List.zipWith f l1 l2).getD i c0 = f (l1.getD i a0) (l2.getD i b0) := by
  intro l1
  induction l1 with
  | nil =>
      intro l2 i h
      simp at h
  | cons a l1t ih =>
      intro l2 i h
      cases l2 with
      | nil => simp at h
      | cons b l2t =>
          cases i with
          | zero => rfl
          | succ n =>
              simp only [List.zipWith_cons_cons, List.length_cons] at h
              simp only [List.getD_cons_succ]
              exact ih l2t n (Nat.lt_of_succ_lt_succ h)

/-- Dividing a finite number by float zero and scaling by 100 always
yields NaN or a signed infinity, never a finite value and never an
error. -/
theorem cfr_entry_nonfinite (d : ℚ) :
    (FVal.mul (FVal.div (FVal.num d) (FVal.num 0)) (FVal.num 100)).isFinite
      = false := by
  rcases lt_trichotomy d 0 with h | h | h
  · have h1 : ¬(0 : ℚ) < d := not_lt.mpr (le_of_lt h)
    have h2 : d ≠ 0 := ne_of_lt h
    simp [FVal.div, FVal.mul, FVal.isFinite, h1, h2]
  · subst h
    simp [FVal.div, FVal.mul, FVal.isFinite]
  · have h2 : d ≠ 0 := ne_of_gt h
    simp [FVal.div, FVal.mul, FVal.isFinite, h, h2]

/-- Claim C7: wherever the lagged daily-cases denominator of the
case-fatality-ratio series is float zero, the CFR value computed by
make_plots is non-finite (NaN or an infinity); the division is total, so
no error is raised on the way to rendering. -/
theorem claim_C7_cfr_nonfinite_on_zero_denominator
    (deaths cases : List ℚ) (lookback i : ℕ)
    (hi : i < (cfrSeries deaths cases lookback).length)
    (hz : (shiftSeries lookback (cases.map FVal.num)).getD i FVal.nan
      = FVal.num 0) :
    ((cfrSeries deaths cases lookback).getD i FVal.nan).isFinite = false := by
  unfold cfrSeries at hi ⊢
  rw [zipWith_getD _ 0 FVal.nan FVal.nan deaths _ i hi, hz]
  exact cfr_entry_nonfinite _

/-- Claim C7 witness: the non-finiteness theorem applied to a one-day
series with five deaths and zero lagged cases. -/
theorem claim_C7_witness :
    0 < (cfrSeries [5] [0] 0).length ∧
    (shiftSeries 0 (([0] : List ℚ).map FVal.num)).getD 0 FVal.nan = FVal.num 0 ∧
    ((cfrSeries [5] [0] 0).getD 0 FVal.nan).isFinite = false :=
  ⟨by decide, by rfl,
   claim_C7_cfr_nonfinite_on_zero_denominator [5] [0] 0 0 (by decide) (by rfl)⟩

/-- Claim C8: filtering the derived table by a state absent from the
data, or by a (state, county) combination that co-occurs in no record,
yields the empty table — the filter is total and raises nothing. -/
theorem claim_C8_absent_filters_empty
    (t : List DRow) (s c : String) (hs : s ≠ "") :
    ((∀ d ∈ t, d.row.state ≠ s) → filterLocality t s c = []) ∧
    (c ≠ "" → (∀ d ∈ t, ¬(d.row.state = s ∧ d.row.county = c)) →
      filterLocality t s c = []) := by
  constructor
  · intro habs
    unfold filterLocality
    have h1 : t.filter (fun d => d.row.state = s) = [] := by
      rw [List.filter_eq_nil_iff]
      intro d hd
      simp [habs d hd]
    simp only [if_pos hs, h1]
    by_cases hc : c ≠ ""
    · simp [hc]
    · simp [hc]
  · intro hc habs
    unfold filterLocality
    have h1 : (t.filter (fun d => d.row.state = s)).filter
        (fun d => d.row.county = c) = [] := by
      rw [List.filter_eq_nil_iff]
      intro d hd
      rcases List.mem_filter.mp hd with ⟨hdt, hds⟩
      have hstate : d.row.state = s := of_decide_eq_true hds
      intro hcounty
      exact habs d hdt ⟨hstate, of_decide_eq_true hcounty⟩
    simp only [if_pos hs, if_pos hc, h1]

/-- A one-row derived table used to witness the empty-filter theorem. -/
def tableC8 : List DRow :=
  [⟨⟨1, "Virginia", "Fairfax", 51059, 10, 2⟩, 0, 0⟩]

/-- Claim C8 witness: filtering the concrete one-row table by an absent
state yields the empty table. -/
theorem claim_C8_witness :
    ("Nowhere" : String) ≠ "" ∧
    (∀ d ∈ tableC8, d.row.state ≠ "Nowhere") ∧
    filterLocality tableC8 "Nowhere" "" = [] :=
  ⟨by decide, by decide,
   (claim_C8_absent_filters_empty tableC8 "Nowhere" "" (by decide)).1 (by decide)⟩
